import Mathlib

/-!
Shallow embedding of the WebGPU texture atlas and batched draw pipeline of
`gpui-ce` (`src/platform/web/web_atlas.rs` and `src/platform/web/renderer.rs`).
Device-pixel dimensions are modelled as `Nat` (the source stores them in
`DevicePixels`, an `i32`, but every size reaching the atlas is nonnegative);
pixel bytes are modelled as `List Nat`.
-/

namespace GpuiWeb

/-! ## Definitions -/

/-- `Size<DevicePixels>` from the source: a width/height pair. -/
structure SizeD where
  width : Nat
  height : Nat
deriving DecidableEq, Repr

/-- Componentwise max, mirroring `Size::max` used by `push_texture`. -/
def SizeD.maxSize (a b : SizeD) : SizeD :=
  ⟨Nat.max a.width b.width, Nat.max a.height b.height⟩

/-- `Point<DevicePixels>` from the source. -/
structure PointD where
  x : Nat
  y : Nat
deriving DecidableEq, Repr

/-- `Bounds<DevicePixels>` from the source: origin plus size. -/
structure BoundsD where
  origin : PointD
  size : SizeD
deriving DecidableEq, Repr

/-- Two bounds rectangles overlap when they share at least one device pixel
(half-open boxes); empty rectangles overlap nothing. -/
def BoundsD.overlaps (a b : BoundsD) : Prop :=
  a.origin.x < b.origin.x + b.size.width ∧
  b.origin.x < a.origin.x + a.size.width ∧
  a.origin.y < b.origin.y + b.size.height ∧
  b.origin.y < a.origin.y + a.size.height

instance (a b : BoundsD) : Decidable (a.overlaps b) := by
  unfold BoundsD.overlaps; infer_instance

/-- Modelled from the spec: the Rectangle Allocator (`etagere::BucketedAtlasAllocator`,
an external crate whose code is not under `src/`).  Per §4.1 it is a deterministic
bin-packer: `allocate(size)` returns a rectangle overlapping no live allocation or
fails when the texture is full, and `free` is never called by this atlas variant.
We realise the contract with shelf packing: a cursor `(cx, cy)` walks the current
shelf of height `rowH`; a request is placed at the cursor when it fits, on a fresh
shelf below otherwise, and fails when neither fits.  Every successful allocation
is recorded as `(id, rectangle)` with a fresh increasing `id` (the source's
`etagere::AllocId`); nothing is ever removed from `allocated`. -/
structure ShelfAllocator where
  texWidth : Nat
  texHeight : Nat
  cx : Nat
  cy : Nat
  rowH : Nat
  nextId : Nat
  allocated : List (Nat × BoundsD)
deriving DecidableEq, Repr

/-- A fresh allocator for a texture of the given size (`BucketedAtlasAllocator::new`). -/
def ShelfAllocator.fresh (size : SizeD) : ShelfAllocator :=
  ⟨size.width, size.height, 0, 0, 0, 0, []⟩

/-- Allocate a `w × h` rectangle; returns the allocation id, the placed rectangle
and the updated allocator, or `none` when the texture is full. -/
def ShelfAllocator.allocate (a : ShelfAllocator) (size : SizeD) :
    Option (Nat × BoundsD × ShelfAllocator) :=
  let w := size.width
  let h := size.height
  if a.cx + w ≤ a.texWidth ∧ a.cy + h ≤ a.texHeight then
    let r : BoundsD := ⟨⟨a.cx, a.cy⟩, size⟩
    some (a.nextId, r,
      { a with cx := a.cx + w, rowH := Nat.max a.rowH h,
               nextId := a.nextId + 1, allocated := (a.nextId, r) :: a.allocated })
  else if w ≤ a.texWidth ∧ a.cy + a.rowH + h ≤ a.texHeight then
    let r : BoundsD := ⟨⟨0, a.cy + a.rowH⟩, size⟩
    some (a.nextId, r,
      { a with cx := w, cy := a.cy + a.rowH, rowH := h,
               nextId := a.nextId + 1, allocated := (a.nextId, r) :: a.allocated })
  else
    none

/-- Geometric well-formedness of a shelf allocator: every recorded rectangle sits
inside the texture width, below-or-at the frontier, and recorded entries carry
distinct ids below `nextId` and pairwise non-overlapping rectangles. -/
def ShelfAllocator.Inv (a : ShelfAllocator) : Prop :=
  (∀ p ∈ a.allocated,
      p.2.origin.x + p.2.size.width ≤ a.texWidth ∧
      (p.2.origin.y + p.2.size.height ≤ a.cy ∨
        (p.2.origin.y = a.cy ∧ p.2.origin.x + p.2.size.width ≤ a.cx ∧
         p.2.origin.y + p.2.size.height ≤ a.cy + a.rowH))) ∧
  (∀ p ∈ a.allocated, p.1 < a.nextId) ∧
  a.allocated.Pairwise (fun p q => p.1 ≠ q.1 ∧ ¬ p.2.overlaps q.2)

/-- `AtlasTextureKind` from the source: monochrome (R8, 1 byte/pixel) or
polychrome (BGRA8, 4 bytes/pixel). -/
inductive AtlasTextureKind where
  | monochrome
  | polychrome
deriving DecidableEq, Repr

/-- `AtlasTextureId` from the source: slot index within its kind, plus the kind. -/
structure AtlasTextureId where
  index : Nat
  kind : AtlasTextureKind
deriving DecidableEq, Repr

/-- Modelled from the spec: `AtlasKey` (the ContentKey of §3) lives outside `src/`
in the host crate.  Per the spec it is an opaque value-compared identity from
which a texture kind is derived; we model it as a numeric identity paired with
its kind. -/
structure AtlasKey where
  ident : Nat
  kind : AtlasTextureKind
deriving DecidableEq, Repr

/-- `AtlasKey::texture_kind()`: the partition a key's tile lives in. -/
def AtlasKey.textureKind (k : AtlasKey) : AtlasTextureKind := k.kind

/-- `AtlasTile` from the source: texture id, allocator tile id, padding, bounds. -/
structure AtlasTile where
  textureId : AtlasTextureId
  tileId : Nat
  padding : Nat
  bounds : BoundsD
deriving DecidableEq, Repr

/-- `WebGpuAtlasTexture` from the source, with the raw GPU handle and view
omitted (opaque device objects with no bearing on the claims). -/
structure WebGpuAtlasTexture where
  id : AtlasTextureId
  allocator : ShelfAllocator
  size : SizeD
  bytesPerPixel : Nat
  liveAtlasKeys : Nat
deriving DecidableEq, Repr

/-- `WebGpuAtlasTexture::allocate`: allocate a tile rectangle and bump the
live-key count.  The tile's bounds take the allocation's origin and the
requested size, exactly as the source builds `AtlasTile`. -/
def WebGpuAtlasTexture.allocate (t : WebGpuAtlasTexture) (size : SizeD) :
    Option (AtlasTile × WebGpuAtlasTexture) :=
  match t.allocator.allocate size with
  | none => none
  | some (i, r, alloc') =>
      some (⟨t.id, i, 0, ⟨r.origin, size⟩⟩,
        { t with allocator := alloc', liveAtlasKeys := t.liveAtlasKeys + 1 })

/-- `WebGpuAtlasTexture::decrement_ref_count` (`saturating_sub(1)`, which is
`Nat` subtraction). -/
def WebGpuAtlasTexture.decrementRefCount (t : WebGpuAtlasTexture) : WebGpuAtlasTexture :=
  { t with liveAtlasKeys := t.liveAtlasKeys - 1 }

/-- `AtlasTextureList` from the host crate (not under `src/`), modelled from its
use sites: a vector of optional texture slots plus a free-list of reusable slot
indices (stack top at the head). -/
structure AtlasTextureList where
  textures : List (Option WebGpuAtlasTexture)
  freeList : List Nat
deriving DecidableEq, Repr

/-- `WebGpuAtlasStorage` from the source: one texture list per kind. -/
structure WebGpuAtlasStorage where
  monochromeTextures : AtlasTextureList
  polychromeTextures : AtlasTextureList
deriving DecidableEq, Repr

/-- `Index<AtlasTextureKind>` on the storage. -/
def WebGpuAtlasStorage.kindList (st : WebGpuAtlasStorage) (kind : AtlasTextureKind) :
    AtlasTextureList :=
  match kind with
  | .monochrome => st.monochromeTextures
  | .polychrome => st.polychromeTextures

/-- Functional update of one kind's texture list. -/
def WebGpuAtlasStorage.setKindList (st : WebGpuAtlasStorage) (kind : AtlasTextureKind)
    (tl : AtlasTextureList) : WebGpuAtlasStorage :=
  match kind with
  | .monochrome => { st with monochromeTextures := tl }
  | .polychrome => { st with polychromeTextures := tl }

/-- `WebGpuAtlasStorage::get`: look a texture up by id. -/
def WebGpuAtlasStorage.get (st : WebGpuAtlasStorage) (id : AtlasTextureId) :
    Option WebGpuAtlasTexture :=
  ((st.kindList id.kind).textures.getD id.index none)

/-- Functional counterpart of `WebGpuAtlasStorage::get_mut` followed by a write:
replace the slot named by `id` (when present) with `t`. -/
def WebGpuAtlasStorage.setSlot (st : WebGpuAtlasStorage) (id : AtlasTextureId)
    (t : WebGpuAtlasTexture) : WebGpuAtlasStorage :=
  let tl := st.kindList id.kind
  st.setKindList id.kind { tl with textures := tl.textures.set id.index (some t) }

/-- `PendingUpload` from the source. -/
structure PendingUpload where
  id : AtlasTextureId
  bounds : BoundsD
  data : List Nat
deriving DecidableEq, Repr

/-- `CacheStats` from the source. -/
structure CacheStats where
  hits : Nat
  misses : Nat
deriving DecidableEq, Repr

/-- `WebGpuAtlasState` from the source, with the GPU context handle omitted. -/
structure WebGpuAtlasState where
  storage : WebGpuAtlasStorage
  tilesByKey : List (AtlasKey × AtlasTile)
  uploads : List PendingUpload
  stats : CacheStats
deriving DecidableEq, Repr

/-- `FxHashMap::get` on the association list modelling `tiles_by_key`. -/
def mapLookup : List (AtlasKey × AtlasTile) → AtlasKey → Option AtlasTile
  | [], _ => none
  | (k', t) :: rest, k => if k' = k then some t else mapLookup rest k

/-- `FxHashMap::remove`: drop the binding of `k` (first occurrence; bindings are
unique in every reachable state). -/
def mapErase : List (AtlasKey × AtlasTile) → AtlasKey → List (AtlasKey × AtlasTile)
  | [], _ => []
  | (k', t) :: rest, k => if k' = k then rest else (k', t) :: mapErase rest k

/-- `FxHashMap::insert`: bind `k` to `t`, replacing any previous binding. -/
def mapInsert (m : List (AtlasKey × AtlasTile)) (k : AtlasKey) (t : AtlasTile) :
    List (AtlasKey × AtlasTile) :=
  (k, t) :: mapErase m k

/-- The reverse-order scan of `allocate`: `textures.iter_mut().rev().find_map(|t|
t.allocate(size))` — try the most recently created texture (highest slot) first,
skipping empty slots, and update the succeeding texture in place. -/
def tryAllocRev : List (Option WebGpuAtlasTexture) → SizeD →
    Option (AtlasTile × List (Option WebGpuAtlasTexture))
  | [], _ => none
  | t :: rest, size =>
    match tryAllocRev rest size with
    | some (tile, rest') => some (tile, t :: rest')
    | none =>
      match t with
      | none => none
      | some tex =>
        match tex.allocate size with
        | none => none
        | some (tile, tex') => some (tile, some tex' :: rest)

/-- `DEFAULT_ATLAS_SIZE` from `push_texture`. -/
def defaultAtlasSize : SizeD := ⟨1024, 1024⟩

/-- `WebGpuAtlasState::push_texture`: create a texture of size
`min_size.max(1024×1024)` with a fresh allocator, placing it at a free-listed
slot when one exists and appending otherwise.  Returns the new texture, its slot
index and the updated state. -/
def WebGpuAtlasState.pushTexture (s : WebGpuAtlasState) (minSize : SizeD)
    (kind : AtlasTextureKind) : WebGpuAtlasTexture × Nat × WebGpuAtlasState :=
  let size := minSize.maxSize defaultAtlasSize
  let bpp : Nat := match kind with
    | .monochrome => 1
    | .polychrome => 4
  let tl := s.storage.kindList kind
  match tl.freeList with
  | ix :: restFree =>
      let tex : WebGpuAtlasTexture :=
        ⟨⟨ix, kind⟩, ShelfAllocator.fresh size, size, bpp, 0⟩
      (tex, ix,
        { s with storage :=
            s.storage.setKindList kind ⟨tl.textures.set ix (some tex), restFree⟩ })
  | [] =>
      let ix := tl.textures.length
      let tex : WebGpuAtlasTexture :=
        ⟨⟨ix, kind⟩, ShelfAllocator.fresh size, size, bpp, 0⟩
      (tex, ix,
        { s with storage :=
            s.storage.setKindList kind ⟨tl.textures ++ [some tex], []⟩ })

/-- `WebGpuAtlasState::allocate`: try existing textures newest-first; on total
failure push a new texture and allocate there.  `none` models the source's
panic (`expect("Failed to allocate in new texture")`), proved unreachable. -/
def WebGpuAtlasState.allocate (s : WebGpuAtlasState) (size : SizeD)
    (kind : AtlasTextureKind) : Option (AtlasTile × WebGpuAtlasState) :=
  match tryAllocRev (s.storage.kindList kind).textures size with
  | some (tile, ts') =>
      some (tile,
        { s with storage :=
            s.storage.setKindList kind ⟨ts', (s.storage.kindList kind).freeList⟩ })
  | none =>
    match (s.pushTexture size kind).1.allocate size with
    | none => none
    | some (tile, tex') =>
        some (tile,
          WebGpuAtlasState.mk
            ((s.pushTexture size kind).2.2.storage.setSlot
              ⟨(s.pushTexture size kind).2.1, kind⟩ tex')
            (s.pushTexture size kind).2.2.tilesByKey
            (s.pushTexture size kind).2.2.uploads
            (s.pushTexture size kind).2.2.stats)

/-- One invocation outcome of the caller's `build` closure: an error, no
content, or `(size, bytes)`. -/
abbrev BuildOutcome := Except Unit (Option (SizeD × List Nat))

/-- `PlatformAtlas::get_or_insert_with` for `WebGpuAtlas`.  Returns the call's
result, the number of times `build` was invoked, and the new state; the outer
`none` models the unreachable allocation panic. -/
def WebGpuAtlasState.getOrInsertWith (s : WebGpuAtlasState) (key : AtlasKey)
    (build : BuildOutcome) :
    Option (Except Unit (Option AtlasTile) × Nat × WebGpuAtlasState) :=
  match mapLookup s.tilesByKey key with
  | some tile =>
      some (.ok (some tile), 0,
        { s with stats := { s.stats with hits := s.stats.hits + 1 } })
  | none =>
    let s1 := { s with stats := { s.stats with misses := s.stats.misses + 1 } }
    match build with
    | .error e => some (.error e, 1, s1)
    | .ok none => some (.ok none, 1, s1)
    | .ok (some (size, bytes)) =>
      match s1.allocate size key.textureKind with
      | none => none
      | some (tile, s2) =>
          some (.ok (some tile), 1,
            { s2 with
                uploads := s2.uploads ++ [⟨tile.textureId, tile.bounds, bytes⟩],
                tilesByKey := mapInsert s2.tilesByKey key tile })

/-- `PlatformAtlas::remove` for `WebGpuAtlas`: drop the cache binding when it
exists, then decrement the owning texture's live-key count when that texture is
registered (the eviction does not touch the storage, so the two steps commute). -/
def WebGpuAtlasState.removeKey (s : WebGpuAtlasState) (key : AtlasKey) :
    WebGpuAtlasState :=
  match mapLookup s.tilesByKey key with
  | none => s
  | some tile =>
    match s.storage.get tile.textureId with
    | none => { s with tilesByKey := mapErase s.tilesByKey key }
    | some tex =>
        { s with tilesByKey := mapErase s.tilesByKey key,
                 storage := s.storage.setSlot tile.textureId tex.decrementRefCount }

/-- `WebGpuAtlasState::flush_uploads`: reset the per-frame stats, drain the
queue, and perform one `write_texture` per entry whose destination texture is
registered (entries naming an unknown id are skipped by the loop's `continue`).
Returns the new state and the uploads actually written, in queue order. -/
def WebGpuAtlasState.flushUploads (s : WebGpuAtlasState) :
    WebGpuAtlasState × List PendingUpload :=
  let performed := s.uploads.filter (fun u => (s.storage.get u.id).isSome)
  ({ s with uploads := [], stats := ⟨0, 0⟩ }, performed)

/-- `WebGpuAtlas::new`: the empty atlas state. -/
def atlasInit : WebGpuAtlasState :=
  ⟨⟨⟨[], []⟩, ⟨[], []⟩⟩, [], [], ⟨0, 0⟩⟩

/-- One externally invokable atlas operation. -/
inductive AtlasOp where
  | getOrInsert (key : AtlasKey) (build : BuildOutcome)
  | removeKey (key : AtlasKey)
  | flush
deriving Repr

/-- Whether an operation is `remove` of the given key (used to phrase claims
about operation sequences without comparing `build` closures). -/
def AtlasOp.removesKey : AtlasOp → AtlasKey → Bool
  | .removeKey k', k => k' = k
  | _, _ => false

/-- Apply one operation; `none` models the unreachable allocation panic. -/
def applyOp (s : WebGpuAtlasState) : AtlasOp → Option WebGpuAtlasState
  | .getOrInsert k b => (s.getOrInsertWith k b).map (fun r => r.2.2)
  | .removeKey k => some (s.removeKey k)
  | .flush => some (s.flushUploads).1

/-- Run a sequence of atlas operations. -/
def runOps (s : WebGpuAtlasState) : List AtlasOp → Option WebGpuAtlasState
  | [] => some s
  | op :: rest =>
    match applyOp s op with
    | none => none
    | some s' => runOps s' rest

/-- `MAX_QUADS_PER_BATCH` from the source (`max_instances_per_kind` for quads). -/
def maxQuadsPerBatch : Nat := 4096

/-- `STORAGE_BUFFER_ALIGNMENT` from the source (WebGPU's minimum storage-buffer
offset alignment). -/
def storageBufferAlignment : Nat := 256

/-- The u64 bit pattern of `!(STORAGE_BUFFER_ALIGNMENT - 1)`. -/
def alignMask64 : Nat := 2 ^ 64 - storageBufferAlignment

/-- The source's offset rounding `(next_offset + A - 1) & !(A - 1)` on u64. -/
def alignUpOffset (x : Nat) : Nat :=
  (x + (storageBufferAlignment - 1)) &&& alignMask64

/-- Result of one `draw_quads_internal` call: how many instances were drawn,
the returned buffer offset, and whether the overflow warning was logged. -/
structure DrawStep where
  drawn : Nat
  nextOffset : Nat
  overflowLogged : Bool
deriving DecidableEq, Repr

/-- `WebRenderer::draw_quads_internal` from the source, abstracted over the
instance byte size `quadSize` (`mem::size_of::<Quad>()`, a host-crate constant)
and the batch length `numQuads`.  Empty batches return the offset unchanged;
the instance count is first capped at `MAX_QUADS_PER_BATCH`; if the capped
bytes do not fit between `bufferOffset` and the buffer capacity the call logs
and returns the offset unchanged without writing or drawing; otherwise it
writes `count` instances at `bufferOffset`, draws them, and returns the next
aligned offset. -/

def drawQuadsInternal (quadSize numQuads bufferOffset : Nat) : DrawStep :=
  if numQuads = 0 then
    ⟨0, bufferOffset, false⟩
  else if maxQuadsPerBatch * quadSize <
      bufferOffset + Nat.min numQuads maxQuadsPerBatch * quadSize then
    ⟨0, bufferOffset, true⟩
  else
    ⟨Nat.min numQuads maxQuadsPerBatch,
     alignUpOffset (bufferOffset + Nat.min numQuads maxQuadsPerBatch * quadSize),
     false⟩

/-- The per-frame offset trace for the quad kind: `draw` resets
`quad_buffer_offset` to 0 at the start of the frame, then threads it through
every quad batch of the scene in order. -/
def frameQuadOffsets (quadSize : Nat) (batches : List Nat) : List Nat :=
  batches.scanl (fun o n => (drawQuadsInternal quadSize n o).nextOffset) 0

/-- The key lists of the cache are duplicate-free in every reachable state. -/
def keysNodup (m : List (AtlasKey × AtlasTile)) : Prop :=
  m.Pairwise (fun a b => a.1 ≠ b.1)

/-- The `bytes_per_pixel` chosen by `push_texture` for each kind. -/
def bytesPerPixelFor : AtlasTextureKind → Nat
  | .monochrome => 1
  | .polychrome => 4

/-- The texture `push_texture` creates when the free list is empty. -/
def freshTextureFor (s : WebGpuAtlasState) (minSize : SizeD)
    (kind : AtlasTextureKind) : WebGpuAtlasTexture :=
  ⟨⟨(s.storage.kindList kind).textures.length, kind⟩,
   ShelfAllocator.fresh (minSize.maxSize defaultAtlasSize),
   minSize.maxSize defaultAtlasSize,
   bytesPerPixelFor kind, 0⟩

/-- The storage half of the reachable-state invariant: free lists are never
populated (`web_atlas.rs` never pushes to `free_list`), every occupied slot's
texture carries the id of its own slot, and every allocator is well formed. -/
def StorageWF (s : WebGpuAtlasState) : Prop :=
  (∀ kd, (s.storage.kindList kd).freeList = []) ∧
  (∀ kd ix tex, (s.storage.kindList kd).textures.getD ix none = some tex →
      tex.id = ⟨ix, kd⟩ ∧ tex.allocator.Inv)

/-- The full reachable-state invariant: storage well-formedness, duplicate-free
cache keys, every cached tile backed by a recorded allocation of its texture,
and distinct cached keys of one texture holding distinct allocation ids. -/
def StateWF (s : WebGpuAtlasState) : Prop :=
  StorageWF s ∧
  keysNodup s.tilesByKey ∧
  (∀ k t, mapLookup s.tilesByKey k = some t →
      ∃ tex, s.storage.get t.textureId = some tex ∧
        (t.tileId, t.bounds) ∈ tex.allocator.allocated) ∧
  (∀ k1 k2 t1 t2, k1 ≠ k2 → mapLookup s.tilesByKey k1 = some t1 →
      mapLookup s.tilesByKey k2 = some t2 → t1.textureId = t2.textureId →
      t1.tileId ≠ t2.tileId)

/-- The non-overlap property claimed of live tiles: tiles cached under distinct
keys within the same texture never overlap. -/
def liveTilesDisjoint (s : WebGpuAtlasState) : Prop :=
  ∀ k1 k2 t1 t2, k1 ≠ k2 →
    mapLookup s.tilesByKey k1 = some t1 →
    mapLookup s.tilesByKey k2 = some t2 →
    t1.textureId = t2.textureId →
    ¬ t1.bounds.overlaps t2.bounds

/-- The tile produced by the first 1×1 monochrome insertion into a fresh atlas. -/
def witTile : AtlasTile :=
  ⟨⟨0, .monochrome⟩, 0, 0, ⟨⟨0, 0⟩, ⟨1, 1⟩⟩⟩

/-- The single atlas texture after that insertion. -/
def witTexture : WebGpuAtlasTexture :=
  ⟨⟨0, .monochrome⟩, ⟨1024, 1024, 1, 0, 1, 1, [(0, ⟨⟨0, 0⟩, ⟨1, 1⟩⟩)]⟩,
   ⟨1024, 1024⟩, 1, 1⟩

/-- The operation performing that insertion. -/
def witInsertOps : List AtlasOp :=
  [.getOrInsert ⟨0, .monochrome⟩ (.ok (some (⟨1, 1⟩, [7])))]

/-- The atlas state after that insertion. -/
def witInsertedState : WebGpuAtlasState :=
  ⟨⟨⟨[some witTexture], []⟩, ⟨[], []⟩⟩,
   [(⟨0, .monochrome⟩, witTile)],
   [⟨⟨0, .monochrome⟩, ⟨⟨0, 0⟩, ⟨1, 1⟩⟩, [7]⟩],
   ⟨0, 1⟩⟩

/-- That state after a flush. -/
def witFlushedState : WebGpuAtlasState :=
  ⟨⟨⟨[some witTexture], []⟩, ⟨[], []⟩⟩,
   [(⟨0, .monochrome⟩, witTile)], [], ⟨0, 0⟩⟩

/-- A state whose only pending upload names an unregistered texture id. -/
def witOrphanState : WebGpuAtlasState :=
  ⟨⟨⟨[], []⟩, ⟨[], []⟩⟩, [], [⟨⟨5, .monochrome⟩, ⟨⟨0, 0⟩, ⟨1, 1⟩⟩, [1]⟩], ⟨2, 3⟩⟩

/-! ## Theorems -/

theorem BoundsD.overlaps_symm {a b : BoundsD} (h : a.overlaps b) : b.overlaps a :=
  ⟨h.2.1, h.1, h.2.2.2, h.2.2.1⟩

theorem ShelfAllocator.fresh_inv (size : SizeD) : (ShelfAllocator.fresh size).Inv := by
  refine ⟨?_, ?_, ?_⟩ <;> simp [ShelfAllocator.fresh]

/-- A fresh allocator always satisfies a request no larger than its texture. -/
theorem ShelfAllocator.fresh_allocate_isSome (texSize size : SizeD)
    (hw : size.width ≤ texSize.width) (hh : size.height ≤ texSize.height) :
    ((ShelfAllocator.fresh texSize).allocate size).isSome := by
  simp [ShelfAllocator.fresh, ShelfAllocator.allocate, hw, hh]

theorem ShelfAllocator.allocate_spec {a : ShelfAllocator} {size : SizeD}
    {i : Nat} {r : BoundsD} {a' : ShelfAllocator}
    (hinv : a.Inv) (h : a.allocate size = some (i, r, a')) :
    a'.Inv ∧ i = a.nextId ∧ a'.nextId = a.nextId + 1 ∧
      a'.allocated = (i, r) :: a.allocated ∧
      a'.texWidth = a.texWidth ∧ a'.texHeight = a.texHeight ∧ r.size = size := by
  obtain ⟨hgeom, hids, hpw⟩ := hinv
  unfold ShelfAllocator.allocate at h
  by_cases h1 : a.cx + size.width ≤ a.texWidth ∧ a.cy + size.height ≤ a.texHeight
  · rw [if_pos h1] at h
    simp only [Option.some.injEq, Prod.mk.injEq] at h
    obtain ⟨rfl, rfl, rfl⟩ := h
    refine ⟨⟨?_, ?_, ?_⟩, rfl, rfl, rfl, rfl, rfl, rfl⟩
    · intro p hp
      rcases List.mem_cons.mp hp with hnew | hold
      · subst hnew
        exact ⟨h1.1, Or.inr ⟨rfl, le_refl _, Nat.add_le_add_left (Nat.le_max_right _ _) _⟩⟩
      · obtain ⟨hW, hrest⟩ := hgeom p hold
        refine ⟨hW, ?_⟩
        rcases hrest with hbelow | ⟨hy, hx, hrow⟩
        · exact Or.inl hbelow
        · exact Or.inr ⟨hy, le_trans hx (Nat.le_add_right _ _),
            le_trans hrow (Nat.add_le_add_left (Nat.le_max_left _ _) _)⟩
    · intro p hp
      rcases List.mem_cons.mp hp with hnew | hold
      · subst hnew; exact Nat.lt_succ_self _
      · exact Nat.lt_succ_of_lt (hids p hold)
    · refine List.Pairwise.cons ?_ hpw
      intro q hq
      refine ⟨fun he => absurd (he ▸ hids q hq) (lt_irrefl _), ?_⟩
      intro hov
      obtain ⟨_, hrest⟩ := hgeom q hq
      rcases hrest with hbelow | ⟨_, hx, _⟩
      · exact absurd hov.2.2.1 (not_lt.mpr hbelow)
      · exact absurd hov.1 (not_lt.mpr hx)
  · simp only [h1, if_false] at h
    by_cases h2 : size.width ≤ a.texWidth ∧ a.cy + a.rowH + size.height ≤ a.texHeight
    · rw [if_pos h2] at h
      simp only [Option.some.injEq, Prod.mk.injEq] at h
      obtain ⟨rfl, rfl, rfl⟩ := h
      refine ⟨⟨?_, ?_, ?_⟩, rfl, rfl, rfl, rfl, rfl, rfl⟩
      · intro p hp
        rcases List.mem_cons.mp hp with hnew | hold
        · subst hnew
          exact ⟨(Nat.zero_add _).trans_le h2.1, Or.inr ⟨rfl, (Nat.zero_add _).le, le_refl _⟩⟩
        · obtain ⟨hW, hrest⟩ := hgeom p hold
          refine ⟨hW, Or.inl ?_⟩
          rcases hrest with hbelow | ⟨hy, hx, hrow⟩
          · exact le_trans hbelow (Nat.le_add_right _ _)
          · exact hrow
      · intro p hp
        rcases List.mem_cons.mp hp with hnew | hold
        · subst hnew; exact Nat.lt_succ_self _
        · exact Nat.lt_succ_of_lt (hids p hold)
      · refine List.Pairwise.cons ?_ hpw
        intro q hq
        refine ⟨fun he => absurd (he ▸ hids q hq) (lt_irrefl _), ?_⟩
        intro hov
        obtain ⟨_, hrest⟩ := hgeom q hq
        rcases hrest with hbelow | ⟨_, _, hrow⟩
        · exact absurd hov.2.2.1
            (not_lt.mpr (le_trans hbelow (Nat.le_add_right _ _)))
        · exact absurd hov.2.2.1 (not_lt.mpr hrow)
    · rw [if_neg h2] at h
      exact absurd h (by simp)

/-- The masking form of the rounding agrees with rounding down to a multiple of
256 whenever the intermediate value fits in a u64. -/
theorem land_alignMask64_eq (y : Nat) (hy : y < 2 ^ 64) :
    y &&& alignMask64 = 256 * (y / 256) := by
  have hmask : alignMask64 = (2 ^ 56 - 1) <<< 8 := by
    rw [Nat.shiftLeft_eq]; norm_num [alignMask64, storageBufferAlignment]
  have h256 : 256 * (y / 256) = (y >>> 8) <<< 8 := by
    rw [Nat.shiftRight_eq_div_pow, Nat.shiftLeft_eq]
    norm_num [Nat.mul_comm]
  apply Nat.eq_of_testBit_eq
  intro i
  rw [Nat.testBit_land, h256, hmask, Nat.testBit_shiftLeft, Nat.testBit_shiftLeft,
    Nat.testBit_two_pow_sub_one, Nat.testBit_shiftRight]
  by_cases h8 : 8 ≤ i
  · have hi : 8 + (i - 8) = i := by omega
    rw [hi]
    by_cases h64 : i < 64
    · have h56 : i - 8 < 56 := by omega
      simp [h8, h56]
    · have hz : y.testBit i = false := by
        apply Nat.testBit_lt_two_pow
        exact lt_of_lt_of_le hy (Nat.pow_le_pow_right (by norm_num) (by omega))
      simp [hz]
  · simp [h8]

theorem mapLookup_eq_none_iff {m : List (AtlasKey × AtlasTile)} {k : AtlasKey} :
    mapLookup m k = none ↔ ∀ e ∈ m, e.1 ≠ k := by
  induction m with
  | nil => simp [mapLookup]
  | cons e rest ih =>
    obtain ⟨k', t⟩ := e
    by_cases hk : k' = k
    · subst hk; simp [mapLookup]
    · simp [mapLookup, hk, ih]

theorem mapLookup_erase_ne {m : List (AtlasKey × AtlasTile)} {kgone k : AtlasKey}
    (hne : kgone ≠ k) : mapLookup (mapErase m kgone) k = mapLookup m k := by
  induction m with
  | nil => rfl
  | cons e rest ih =>
    obtain ⟨k', t⟩ := e
    by_cases h1 : k' = kgone
    · subst h1
      have : k' ≠ k := hne
      simp [mapErase, mapLookup, this]
    · by_cases h2 : k' = k
      · subst h2; simp [mapErase, mapLookup, h1]
      · simp [mapErase, mapLookup, h1, h2, ih]

theorem mapErase_of_lookup_none {m : List (AtlasKey × AtlasTile)} {k : AtlasKey}
    (h : mapLookup m k = none) : mapErase m k = m := by
  rw [mapLookup_eq_none_iff] at h
  induction m with
  | nil => rfl
  | cons e rest ih =>
    obtain ⟨k', t⟩ := e
    have hk : k' ≠ k := h (k', t) (List.mem_cons_self _ _)
    simp only [mapErase, if_neg hk, List.cons.injEq, true_and]
    exact ih fun e he => h e (List.mem_cons_of_mem _ he)

theorem mapLookup_insert_self (m : List (AtlasKey × AtlasTile)) (k : AtlasKey)
    (t : AtlasTile) : mapLookup (mapInsert m k t) k = some t := by
  simp [mapInsert, mapLookup]

theorem mapLookup_insert_ne {m : List (AtlasKey × AtlasTile)} {knew k : AtlasKey}
    (hne : knew ≠ k) (t : AtlasTile) :
    mapLookup (mapInsert m knew t) k = mapLookup m k := by
  simp only [mapInsert, mapLookup, if_neg hne]
  exact mapLookup_erase_ne hne

theorem mapLookup_of_all_ne {m : List (AtlasKey × AtlasTile)} {k : AtlasKey}
    (h : ∀ e ∈ m, e.1 ≠ k) : mapLookup m k = none :=
  mapLookup_eq_none_iff.mpr h

theorem mapLookup_erase_self {m : List (AtlasKey × AtlasTile)} {k : AtlasKey}
    (hnd : keysNodup m) : mapLookup (mapErase m k) k = none := by
  induction m with
  | nil => rfl
  | cons e rest ih =>
    obtain ⟨k', t⟩ := e
    rcases List.pairwise_cons.mp hnd with ⟨hhead, hrest⟩
    by_cases h1 : k' = k
    · subst h1
      simp only [mapErase, if_pos rfl]
      exact mapLookup_of_all_ne fun e he => (hhead e he).symm
    · simp only [mapErase, if_neg h1, mapLookup, if_neg h1]
      exact ih hrest

theorem mem_of_mem_mapErase {m : List (AtlasKey × AtlasTile)} {k : AtlasKey}
    {e : AtlasKey × AtlasTile} (h : e ∈ mapErase m k) : e ∈ m := by
  induction m with
  | nil => simpa [mapErase] using h
  | cons f rest ih =>
    obtain ⟨kf, tf⟩ := f
    by_cases h2 : kf = k
    · subst h2; simp only [mapErase, if_pos rfl] at h
      exact List.mem_cons_of_mem _ h
    · simp only [mapErase, if_neg h2, List.mem_cons] at h
      rcases h with h | h
      · exact h ▸ List.mem_cons_self _ _
      · exact List.mem_cons_of_mem _ (ih h)

theorem keysNodup_erase {m : List (AtlasKey × AtlasTile)} (k : AtlasKey)
    (hnd : keysNodup m) : keysNodup (mapErase m k) := by
  induction m with
  | nil => exact hnd
  | cons e rest ih =>
    obtain ⟨k', t⟩ := e
    rcases List.pairwise_cons.mp hnd with ⟨hhead, hrest⟩
    by_cases h1 : k' = k
    · subst h1; simpa [mapErase, keysNodup] using hrest
    · simp only [mapErase, if_neg h1]
      refine List.pairwise_cons.mpr ⟨?_, ih hrest⟩
      intro e he
      exact hhead e (mem_of_mem_mapErase he)

theorem pushTexture_fields (s : WebGpuAtlasState) (minSize : SizeD)
    (kind : AtlasTextureKind) :
    (s.pushTexture minSize kind).1.allocator =
        ShelfAllocator.fresh (minSize.maxSize defaultAtlasSize) ∧
    (s.pushTexture minSize kind).1.size = minSize.maxSize defaultAtlasSize ∧
    (s.pushTexture minSize kind).2.2.tilesByKey = s.tilesByKey ∧
    (s.pushTexture minSize kind).2.2.uploads = s.uploads ∧
    (s.pushTexture minSize kind).2.2.stats = s.stats := by
  unfold WebGpuAtlasState.pushTexture
  cases hfl : (s.storage.kindList kind).freeList with
  | nil => simp [hfl]
  | cons ix rest => simp [hfl]

theorem texAllocate_isSome_of_fits {t : WebGpuAtlasTexture} {size : SizeD}
    (h : (t.allocator.allocate size).isSome) : (t.allocate size).isSome := by
  unfold WebGpuAtlasTexture.allocate
  cases halloc : t.allocator.allocate size with
  | none => rw [halloc] at h; simp at h
  | some r => obtain ⟨i, rect, a'⟩ := r; simp

/-- `WebGpuAtlasState::allocate` never reaches the panic branch: when every
existing texture is full, the fresh texture sized `max(size, 1024×1024)` always
satisfies the request. -/
theorem alloc_isSome (s : WebGpuAtlasState) (size : SizeD) (kind : AtlasTextureKind) :
    (s.allocate size kind).isSome := by
  unfold WebGpuAtlasState.allocate
  cases htry : tryAllocRev (s.storage.kindList kind).textures size with
  | some pr => obtain ⟨tile, ts'⟩ := pr; simp [htry]
  | none =>
    obtain ⟨hallocator, hsize, -⟩ := pushTexture_fields s size kind
    have hfits : (((s.pushTexture size kind).1).allocator.allocate size).isSome := by
      rw [hallocator]
      exact ShelfAllocator.fresh_allocate_isSome _ _
        (Nat.le_max_left _ _) (Nat.le_max_left _ _)
    have := texAllocate_isSome_of_fits hfits
    cases htex : ((s.pushTexture size kind).1).allocate size with
    | none => rw [htex] at this; simp at this
    | some r => obtain ⟨tile, tex'⟩ := r; simp [htry, htex]

theorem allocate_fields {s : WebGpuAtlasState} {size : SizeD}
    {kind : AtlasTextureKind} {tile : AtlasTile} {s2 : WebGpuAtlasState}
    (h : s.allocate size kind = some (tile, s2)) :
    s2.tilesByKey = s.tilesByKey ∧ s2.uploads = s.uploads ∧ s2.stats = s.stats := by
  unfold WebGpuAtlasState.allocate at h
  cases htry : tryAllocRev (s.storage.kindList kind).textures size with
  | some pr =>
    obtain ⟨tile0, ts'⟩ := pr
    rw [htry] at h
    simp only [Option.some.injEq, Prod.mk.injEq] at h
    obtain ⟨rfl, rfl⟩ := h
    exact ⟨rfl, rfl, rfl⟩
  | none =>
    rw [htry] at h
    simp only at h
    obtain ⟨-, -, hkeys, hup, hst⟩ := pushTexture_fields s size kind
    cases htex : ((s.pushTexture size kind).1).allocate size with
    | none => rw [htex] at h; simp at h
    | some r =>
      obtain ⟨tile0, tex'⟩ := r
      rw [htex] at h
      simp only [Option.some.injEq, Prod.mk.injEq] at h
      obtain ⟨rfl, rfl⟩ := h
      exact ⟨hkeys, hup, hst⟩

theorem getOrInsertWith_preserves_lookup {s : WebGpuAtlasState} {k : AtlasKey}
    {t : AtlasTile} (k' : AtlasKey) (b : BuildOutcome)
    {res : Except Unit (Option AtlasTile) × Nat × WebGpuAtlasState}
    (hc : mapLookup s.tilesByKey k = some t)
    (h : s.getOrInsertWith k' b = some res) :
    mapLookup res.2.2.tilesByKey k = some t := by
  unfold WebGpuAtlasState.getOrInsertWith at h
  cases hlook : mapLookup s.tilesByKey k' with
  | some tile =>
    rw [hlook] at h
    simp only [Option.some.injEq] at h
    subst h
    exact hc
  | none =>
    rw [hlook] at h
    have hne : k' ≠ k := fun he => by rw [he, hc] at hlook; exact Option.noConfusion hlook
    cases b with
    | error e =>
      simp only [Option.some.injEq] at h; subst h; exact hc
    | ok content =>
      cases content with
      | none => simp only [Option.some.injEq] at h; subst h; exact hc
      | some pr =>
        obtain ⟨size, bytes⟩ := pr
        simp only at h
        cases halloc : ({ s with stats := { s.stats with misses := s.stats.misses + 1 }} :
            WebGpuAtlasState).allocate size k'.textureKind with
        | none => rw [halloc] at h; exact Option.noConfusion h
        | some pr2 =>
          obtain ⟨tile, s2⟩ := pr2
          rw [halloc] at h
          simp only [Option.some.injEq] at h
          subst h
          have hkeys := (allocate_fields halloc).1
          simp only [hkeys]
          rw [mapLookup_insert_ne hne]
          exact hc

theorem applyOp_preserves_lookup {s s' : WebGpuAtlasState} {k : AtlasKey}
    {t : AtlasTile} {op : AtlasOp}
    (hc : mapLookup s.tilesByKey k = some t)
    (hop : op.removesKey k = false)
    (h : applyOp s op = some s') :
    mapLookup s'.tilesByKey k = some t := by
  cases op with
  | getOrInsert k' b =>
    simp only [applyOp, Option.map_eq_some'] at h
    obtain ⟨res, hres, rfl⟩ := h
    exact getOrInsertWith_preserves_lookup k' b hc hres
  | removeKey k' =>
    have hne : k' ≠ k := by
      intro he; subst he; simp [AtlasOp.removesKey] at hop
    simp only [applyOp, Option.some.injEq] at h
    subst h
    unfold WebGpuAtlasState.removeKey
    cases hlook : mapLookup s.tilesByKey k' with
    | none => exact hc
    | some tile =>
      simp only
      cases s.storage.get tile.textureId with
      | none => simpa [mapLookup_erase_ne hne] using hc
      | some tex => simpa [mapLookup_erase_ne hne] using hc
  | flush =>
    simp only [applyOp, Option.some.injEq] at h
    subst h
    exact hc

theorem runOps_preserves_lookup {s s' : WebGpuAtlasState} {k : AtlasKey}
    {t : AtlasTile} {ops : List AtlasOp}
    (hc : mapLookup s.tilesByKey k = some t)
    (hops : ∀ op ∈ ops, op.removesKey k = false)
    (h : runOps s ops = some s') :
    mapLookup s'.tilesByKey k = some t := by
  induction ops generalizing s with
  | nil =>
    simp only [runOps, Option.some.injEq] at h; subst h; exact hc
  | cons op rest ih =>
    simp only [runOps] at h
    cases happ : applyOp s op with
    | none => rw [happ] at h; exact Option.noConfusion h
    | some s1 =>
      rw [happ] at h
      have hc1 := applyOp_preserves_lookup hc
        (hops op (List.mem_cons_self _ _)) happ
      exact ih hc1 (fun o ho => hops o (List.mem_cons_of_mem _ ho)) h

theorem listGetD_set_eq {α : Type} (l : List α) (d : α) (i : Nat) (a : α)
    (h : i < l.length) : (l.set i a).getD i d = a := by
  induction l generalizing i with
  | nil => simp at h
  | cons x xs ih =>
    cases i with
    | zero => rfl
    | succ n =>
      simp only [List.set, List.getD_cons_succ]
      exact ih n (Nat.lt_of_succ_lt_succ h)

theorem listGetD_set_ne {α : Type} (l : List α) (d : α) {i j : Nat} (h : i ≠ j)
    (a : α) : (l.set i a).getD j d = l.getD j d := by
  induction l generalizing i j with
  | nil => rfl
  | cons x xs ih =>
    cases i with
    | zero =>
      cases j with
      | zero => exact absurd rfl h
      | succ m => rfl
    | succ n =>
      cases j with
      | zero => rfl
      | succ m =>
        simp only [List.set, List.getD_cons_succ]
        exact ih (fun he => h (congrArg Nat.succ he))

theorem listGetD_append_left {α : Type} (l l' : List α) (d : α) {i : Nat}
    (h : i < l.length) : (l ++ l').getD i d = l.getD i d := by
  induction l generalizing i with
  | nil => simp at h
  | cons x xs ih =>
    cases i with
    | zero => rfl
    | succ n =>
      simp only [List.cons_append, List.getD_cons_succ]
      exact ih (Nat.lt_of_succ_lt_succ h)

theorem listGetD_append_length {α : Type} (l : List α) (a : α) (d : α) :
    (l ++ [a]).getD l.length d = a := by
  induction l with
  | nil => rfl
  | cons x xs ih => simpa using ih

theorem listSet_append_length {α : Type} (l : List α) (a b : α) :
    (l ++ [a]).set l.length b = l ++ [b] := by
  induction l with
  | nil => rfl
  | cons x xs ih => simpa using ih

theorem listGetD_eq_of_ge {α : Type} (l : List α) (d : α) {i : Nat}
    (h : l.length ≤ i) : l.getD i d = d := by
  induction l generalizing i with
  | nil => cases i <;> rfl
  | cons x xs ih =>
    cases i with
    | zero => simp at h
    | succ n =>
      simp only [List.getD_cons_succ]
      exact ih (Nat.le_of_succ_le_succ h)

theorem lt_length_of_getD_some {l : List (Option WebGpuAtlasTexture)}
    {i : Nat} {tex : WebGpuAtlasTexture} (h : l.getD i none = some tex) :
    i < l.length := by
  by_contra hge
  rw [listGetD_eq_of_ge l none (Nat.le_of_not_lt hge)] at h
  exact Option.noConfusion h

theorem kindList_setKindList (st : WebGpuAtlasStorage) (kind : AtlasTextureKind)
    (tl : AtlasTextureList) (kind' : AtlasTextureKind) :
    (st.setKindList kind tl).kindList kind' =
      if kind' = kind then tl else st.kindList kind' := by
  cases kind <;> cases kind' <;>
    simp [WebGpuAtlasStorage.setKindList, WebGpuAtlasStorage.kindList]

theorem kindList_setSlot (st : WebGpuAtlasStorage) (id : AtlasTextureId)
    (t : WebGpuAtlasTexture) (kind' : AtlasTextureKind) :
    (st.setSlot id t).kindList kind' =
      if kind' = id.kind then
        ⟨(st.kindList id.kind).textures.set id.index (some t),
         (st.kindList id.kind).freeList⟩
      else st.kindList kind' := by
  unfold WebGpuAtlasStorage.setSlot
  rw [kindList_setKindList]

theorem texAllocate_spec {tex : WebGpuAtlasTexture} {size : SizeD}
    {tile : AtlasTile} {tex' : WebGpuAtlasTexture}
    (hinv : tex.allocator.Inv) (h : tex.allocate size = some (tile, tex')) :
    tex'.allocator.Inv ∧ tile.textureId = tex.id ∧ tex'.id = tex.id ∧
      tile.tileId = tex.allocator.nextId ∧
      tex'.allocator.nextId = tex.allocator.nextId + 1 ∧
      tex'.allocator.allocated =
        (tile.tileId, tile.bounds) :: tex.allocator.allocated ∧
      tex'.liveAtlasKeys = tex.liveAtlasKeys + 1 := by
  unfold WebGpuAtlasTexture.allocate at h
  cases halloc : tex.allocator.allocate size with
  | none => rw [halloc] at h; exact absurd h (by simp)
  | some r =>
    obtain ⟨i, rect, a'⟩ := r
    rw [halloc] at h
    simp only [Option.some.injEq, Prod.mk.injEq] at h
    obtain ⟨rfl, rfl⟩ := h
    obtain ⟨hinv', hi, hnext, hallocd, -, -, hrsize⟩ :=
      ShelfAllocator.allocate_spec hinv halloc
    subst hrsize
    exact ⟨hinv', rfl, rfl, hi, hnext, hallocd, rfl⟩

theorem tryAllocRev_nil (size : SizeD) : tryAllocRev [] size = none := rfl

theorem tryAllocRev_cons (t : Option WebGpuAtlasTexture)
    (rest : List (Option WebGpuAtlasTexture)) (size : SizeD) :
    tryAllocRev (t :: rest) size =
      match tryAllocRev rest size with
      | some (tile, rest') => some (tile, t :: rest')
      | none =>
        match t with
        | none => none
        | some tex =>
          match tex.allocate size with
          | none => none
          | some (tile, tex') => some (tile, some tex' :: rest) := rfl

theorem tryAllocRev_cons_of_rest_some {rest : List (Option WebGpuAtlasTexture)}
    {size : SizeD} {tile0 : AtlasTile} {rest' : List (Option WebGpuAtlasTexture)}
    (t : Option WebGpuAtlasTexture)
    (hrest : tryAllocRev rest size = some (tile0, rest')) :
    tryAllocRev (t :: rest) size = some (tile0, t :: rest') := by
  rw [tryAllocRev_cons, hrest]

theorem tryAllocRev_cons_of_none {rest : List (Option WebGpuAtlasTexture)}
    {size : SizeD} (hrest : tryAllocRev rest size = none) :
    tryAllocRev (none :: rest) size = none := by
  rw [tryAllocRev_cons, hrest]

theorem tryAllocRev_cons_of_some {rest : List (Option WebGpuAtlasTexture)}
    {size : SizeD} (tex : WebGpuAtlasTexture)
    (hrest : tryAllocRev rest size = none) :
    tryAllocRev (some tex :: rest) size =
      match tex.allocate size with
      | none => none
      | some (tile, tex') => some (tile, some tex' :: rest) := by
  rw [tryAllocRev_cons, hrest]

theorem tryAllocRev_spec {ts : List (Option WebGpuAtlasTexture)} {size : SizeD}
    {tile : AtlasTile} {ts' : List (Option WebGpuAtlasTexture)}
    (h : tryAllocRev ts size = some (tile, ts')) :
    ∃ p tex tex', p < ts.length ∧ ts.getD p none = some tex ∧
      tex.allocate size = some (tile, tex') ∧ ts' = ts.set p (some tex') := by
  induction ts generalizing tile ts' with
  | nil => exact absurd h (by simp [tryAllocRev_nil])
  | cons t rest ih =>
    cases hrest : tryAllocRev rest size with
    | some pr =>
      obtain ⟨tile0, rest'⟩ := pr
      rw [tryAllocRev_cons_of_rest_some t hrest] at h
      simp only [Option.some.injEq, Prod.mk.injEq] at h
      obtain ⟨rfl, rfl⟩ := h
      obtain ⟨p, tex, tex', hp, hget, halloc, hset⟩ := ih hrest
      exact ⟨p + 1, tex, tex', Nat.succ_lt_succ hp, hget, halloc, by rw [hset]; rfl⟩
    | none =>
      cases t with
      | none =>
        rw [tryAllocRev_cons_of_none hrest] at h
        exact absurd h (by simp)
      | some tex =>
        rw [tryAllocRev_cons_of_some tex hrest] at h
        cases htex : tex.allocate size with
        | none => rw [htex] at h; exact absurd h (by simp)
        | some pr =>
          obtain ⟨tile0, tex'⟩ := pr
          rw [htex] at h
          simp only [Option.some.injEq, Prod.mk.injEq] at h
          obtain ⟨rfl, rfl⟩ := h
          exact ⟨0, tex, tex', Nat.succ_pos _, rfl, htex, rfl⟩

theorem texId_eq_of {a b : AtlasTextureId} (h1 : a.index = b.index)
    (h2 : a.kind = b.kind) : a = b := by
  cases a; cases b; simp_all

theorem storage_get_def (st : WebGpuAtlasStorage) (id : AtlasTextureId) :
    st.get id = (st.kindList id.kind).textures.getD id.index none := rfl

theorem pushTexture_eq_of_freeList_nil {s : WebGpuAtlasState}
    {kind : AtlasTextureKind} (minSize : SizeD)
    (hfl : (s.storage.kindList kind).freeList = []) :
    s.pushTexture minSize kind =
      (freshTextureFor s minSize kind,
       (s.storage.kindList kind).textures.length,
       { s with storage :=
           s.storage.setKindList kind ⟨(s.storage.kindList kind).textures ++ [some (freshTextureFor s minSize kind)], []⟩ }) := by
  simp only [WebGpuAtlasState.pushTexture, hfl, freshTextureFor, bytesPerPixelFor]

theorem stateWF_allocate {s : WebGpuAtlasState} {size : SizeD}
    {kind : AtlasTextureKind} {tile : AtlasTile} {s2 : WebGpuAtlasState}
    (hsw : StorageWF s) (h : s.allocate size kind = some (tile, s2)) :
    StorageWF s2 ∧
    s2.tilesByKey = s.tilesByKey ∧ s2.uploads = s.uploads ∧ s2.stats = s.stats ∧
    (∃ texN, s2.storage.get tile.textureId = some texN ∧
        (tile.tileId, tile.bounds) ∈ texN.allocator.allocated) ∧
    (∀ id texO, s.storage.get id = some texO →
        ∃ texN, s2.storage.get id = some texN ∧
          ∀ e ∈ texO.allocator.allocated, e ∈ texN.allocator.allocated) ∧
    (s.storage.get tile.textureId = none ∨
      ∃ texO, s.storage.get tile.textureId = some texO ∧
        tile.tileId = texO.allocator.nextId) := by
  obtain ⟨hfree, hslots⟩ := hsw
  unfold WebGpuAtlasState.allocate at h
  cases htry : tryAllocRev (s.storage.kindList kind).textures size with
  | some pr =>
    obtain ⟨tile0, ts'⟩ := pr
    rw [htry] at h
    simp only [Option.some.injEq, Prod.mk.injEq] at h
    obtain ⟨htile, hs2⟩ := h
    obtain rfl := htile.symm
    obtain rfl := hs2
    obtain ⟨p, tex, tex', hp, hget, htexalloc, rfl⟩ := tryAllocRev_spec htry
    obtain ⟨hid, hinv⟩ := hslots kind p tex hget
    obtain ⟨hinv', htid, htexid, htileid, -, hallocd, -⟩ :=
      texAllocate_spec hinv htexalloc
    have htidfull : tile.textureId = ⟨p, kind⟩ := htid.trans hid
    refine ⟨⟨?_, ?_⟩, rfl, rfl, rfl, ?_, ?_, ?_⟩
    · intro kd
      rw [kindList_setKindList]
      by_cases hkd : kd = kind
      · rw [if_pos hkd]; subst hkd; exact hfree kd
      · rw [if_neg hkd]; exact hfree kd
    · intro kd ix texx hgetx
      rw [kindList_setKindList] at hgetx
      by_cases hkd : kd = kind
      · subst hkd
        rw [if_pos rfl] at hgetx
        by_cases hix : ix = p
        · subst hix
          rw [listGetD_set_eq _ _ _ _ hp] at hgetx
          obtain rfl := Option.some.inj hgetx
          exact ⟨htexid.trans hid, hinv'⟩
        · rw [listGetD_set_ne _ _ (fun he => hix he.symm)] at hgetx
          exact hslots kd ix texx hgetx
      · rw [if_neg hkd] at hgetx
        exact hslots kd ix texx hgetx
    · refine ⟨tex', ?_, ?_⟩
      · rw [storage_get_def, htidfull, kindList_setKindList, if_pos rfl]
        exact listGetD_set_eq _ _ _ _ hp
      · rw [hallocd]; exact List.mem_cons_self _ _
    · intro id texO hgetO
      rw [storage_get_def] at hgetO
      by_cases hkd : id.kind = kind
      · by_cases hix : id.index = p
        · have : texO = tex := by
            rw [hkd, hix] at hgetO
            exact Option.some.inj (hgetO.symm.trans hget)
          subst this
          refine ⟨tex', ?_, ?_⟩
          · rw [storage_get_def, kindList_setKindList, hkd, if_pos rfl, hix]
            exact listGetD_set_eq _ _ _ _ hp
          · intro e he; rw [hallocd]; exact List.mem_cons_of_mem _ he
        · refine ⟨texO, ?_, fun e he => he⟩
          rw [storage_get_def, kindList_setKindList, hkd, if_pos rfl]
          rw [listGetD_set_ne _ _ (fun he => hix he.symm)]
          rw [hkd] at hgetO
          exact hgetO
      · refine ⟨texO, ?_, fun e he => he⟩
        rw [storage_get_def, kindList_setKindList, if_neg hkd]
        exact hgetO
    · refine Or.inr ⟨tex, ?_, ?_⟩
      · rw [storage_get_def, htidfull]; exact hget
      · rw [htileid]
  | none =>
    rw [htry] at h
    have hfl := hfree kind
    rw [pushTexture_eq_of_freeList_nil size hfl] at h
    cases htex : (freshTextureFor s size kind).allocate size with
    | none => rw [htex] at h; exact absurd h (by simp)
    | some pr =>
      obtain ⟨tile0, tex'⟩ := pr
      rw [htex] at h
      simp only [Option.some.injEq, Prod.mk.injEq] at h
      obtain ⟨htile, hs2⟩ := h
      obtain rfl := htile.symm
      obtain rfl := hs2
      have hfinv : (freshTextureFor s size kind).allocator.Inv :=
        ShelfAllocator.fresh_inv _
      obtain ⟨hinv', htid, htexid, htileid, -, hallocd, -⟩ :=
        texAllocate_spec hfinv htex
      have hlen : (freshTextureFor s size kind).id =
          ⟨(s.storage.kindList kind).textures.length, kind⟩ := rfl
      have htidfull : tile.textureId =
          ⟨(s.storage.kindList kind).textures.length, kind⟩ := htid.trans hlen
      have hsetlist : ∀ kd,
          ((WebGpuAtlasStorage.setSlot
              (s.storage.setKindList kind
                ⟨(s.storage.kindList kind).textures ++
                  [some (freshTextureFor s size kind)], []⟩)
              ⟨(s.storage.kindList kind).textures.length, kind⟩ tex').kindList kd) =
            if kd = kind then
              ⟨(s.storage.kindList kind).textures ++ [some tex'], []⟩
            else s.storage.kindList kd := by
        intro kd
        rw [kindList_setSlot]
        by_cases hkd : kd = kind
        · rw [if_pos hkd, if_pos hkd]
          rw [kindList_setKindList, if_pos rfl]
          congr 1
          exact listSet_append_length _ _ _
        · rw [if_neg hkd, if_neg hkd]
          rw [kindList_setKindList, if_neg hkd]
      refine ⟨⟨?_, ?_⟩, rfl, rfl, rfl, ?_, ?_, ?_⟩
      · intro kd
        rw [hsetlist kd]
        by_cases hkd : kd = kind
        · rw [if_pos hkd]
        · rw [if_neg hkd]; exact hfree kd
      · intro kd ix texx hgetx
        rw [hsetlist kd] at hgetx
        by_cases hkd : kd = kind
        · subst hkd
          rw [if_pos rfl] at hgetx
          rcases Nat.lt_trichotomy ix (s.storage.kindList kd).textures.length
            with hlt | heq | hgt
          · rw [listGetD_append_left _ _ _ hlt] at hgetx
            exact hslots kd ix texx hgetx
          · subst heq
            rw [listGetD_append_length] at hgetx
            obtain rfl := Option.some.inj hgetx
            exact ⟨htexid.trans hlen, hinv'⟩
          · rw [listGetD_eq_of_ge _ _ (by simp; omega)] at hgetx
            exact Option.noConfusion hgetx
        · rw [if_neg hkd] at hgetx
          exact hslots kd ix texx hgetx
      · refine ⟨tex', ?_, ?_⟩
        · rw [storage_get_def, htidfull, hsetlist kind, if_pos rfl]
          exact listGetD_append_length _ _ _
        · rw [hallocd]; exact List.mem_cons_self _ _
      · intro id texO hgetO
        rw [storage_get_def] at hgetO
        refine ⟨texO, ?_, fun e he => he⟩
        rw [storage_get_def, hsetlist id.kind]
        by_cases hkd : id.kind = kind
        · rw [if_pos hkd]
          have hlt : id.index < (s.storage.kindList kind).textures.length := by
            rw [hkd] at hgetO
            exact lt_length_of_getD_some hgetO
          rw [listGetD_append_left _ _ _ hlt]
          rw [hkd] at hgetO
          exact hgetO
        · rw [if_neg hkd]
          exact hgetO
      · refine Or.inl ?_
        rw [storage_get_def, htidfull]
        exact listGetD_eq_of_ge _ _ (le_refl _)

theorem removeKey_of_lookup_none {s : WebGpuAtlasState} {k : AtlasKey}
    (h : mapLookup s.tilesByKey k = none) : s.removeKey k = s := by
  simp only [WebGpuAtlasState.removeKey, h]

theorem removeKey_of_get_none {s : WebGpuAtlasState} {k : AtlasKey}
    {tile : AtlasTile} (hl : mapLookup s.tilesByKey k = some tile)
    (hg : s.storage.get tile.textureId = none) :
    s.removeKey k = { s with tilesByKey := mapErase s.tilesByKey k } := by
  simp only [WebGpuAtlasState.removeKey, hl, hg]

theorem removeKey_of_get_some {s : WebGpuAtlasState} {k : AtlasKey}
    {tile : AtlasTile} {tex : WebGpuAtlasTexture}
    (hl : mapLookup s.tilesByKey k = some tile)
    (hg : s.storage.get tile.textureId = some tex) :
    s.removeKey k =
      { s with tilesByKey := mapErase s.tilesByKey k,
               storage := s.storage.setSlot tile.textureId tex.decrementRefCount } := by
  simp only [WebGpuAtlasState.removeKey, hl, hg]

theorem stateWF_removeKey {s : WebGpuAtlasState} (k : AtlasKey)
    (hwf : StateWF s) : StateWF (s.removeKey k) := by
  obtain ⟨⟨hfree, hslots⟩, hnd, hmem, hinj⟩ := hwf
  cases hlook : mapLookup s.tilesByKey k with
  | none => rw [removeKey_of_lookup_none hlook]; exact ⟨⟨hfree, hslots⟩, hnd, hmem, hinj⟩
  | some tile =>
    have hlookE : ∀ k1 t1,
        mapLookup (mapErase s.tilesByKey k) k1 = some t1 →
        mapLookup s.tilesByKey k1 = some t1 := by
      intro k1 t1 hl
      by_cases hk1 : k1 = k
      · subst hk1
        rw [mapLookup_erase_self hnd] at hl
        exact Option.noConfusion hl
      · rwa [mapLookup_erase_ne (fun he => hk1 he.symm)] at hl
    cases hget : s.storage.get tile.textureId with
    | none =>
      rw [removeKey_of_get_none hlook hget]
      refine ⟨⟨hfree, hslots⟩, keysNodup_erase _ hnd, ?_, ?_⟩
      · intro k1 t1 hl
        exact hmem k1 t1 (hlookE k1 t1 hl)
      · intro k1 k2 t1 t2 hne hl1 hl2 hsame
        exact hinj k1 k2 t1 t2 hne (hlookE k1 t1 hl1) (hlookE k2 t2 hl2) hsame
    | some tex =>
      have hlen : tile.textureId.index <
          (s.storage.kindList tile.textureId.kind).textures.length := by
        rw [storage_get_def] at hget
        exact lt_length_of_getD_some hget
      have hdecid : tex.decrementRefCount.id = tex.id := rfl
      have hdecalloc : tex.decrementRefCount.allocator = tex.allocator := rfl
      obtain ⟨htexid, htexinv⟩ :=
        hslots tile.textureId.kind tile.textureId.index tex
          (by rw [storage_get_def] at hget; exact hget)
      rw [removeKey_of_get_some hlook hget]
      refine ⟨⟨?_, ?_⟩, keysNodup_erase _ hnd, ?_, ?_⟩
      · intro kd
        rw [kindList_setSlot]
        by_cases hkd : kd = tile.textureId.kind
        · rw [if_pos hkd]; exact hfree tile.textureId.kind
        · rw [if_neg hkd]; exact hfree kd
      · intro kd ix texx hgetx
        rw [kindList_setSlot] at hgetx
        by_cases hkd : kd = tile.textureId.kind
        · rw [if_pos hkd] at hgetx
          by_cases hix : ix = tile.textureId.index
          · subst hix
            rw [listGetD_set_eq _ _ _ _ hlen] at hgetx
            obtain rfl := Option.some.inj hgetx
            subst hkd
            refine ⟨?_, ?_⟩
            · rw [hdecid, htexid]
            · rw [hdecalloc]; exact htexinv
          · rw [listGetD_set_ne _ _ (fun he => hix he.symm)] at hgetx
            subst hkd
            exact hslots _ ix texx hgetx
        · rw [if_neg hkd] at hgetx
          exact hslots kd ix texx hgetx
      · intro k1 t1 hl
        obtain ⟨texO, hgetO, hmemO⟩ := hmem k1 t1 (hlookE k1 t1 hl)
        by_cases hsame : t1.textureId = tile.textureId
        · have hOeq : tex = texO := by
            rw [hsame] at hgetO
            exact Option.some.inj (hget.symm.trans hgetO)
          obtain rfl := hOeq
          refine ⟨tex.decrementRefCount, ?_, ?_⟩
          · rw [storage_get_def, kindList_setSlot, hsame, if_pos rfl]
            rw [listGetD_set_eq _ _ _ _ hlen]
          · rw [hdecalloc]; exact hmemO
        · refine ⟨texO, ?_, hmemO⟩
          rw [storage_get_def, kindList_setSlot]
          rw [storage_get_def] at hgetO
          by_cases hkd : t1.textureId.kind = tile.textureId.kind
          · rw [if_pos hkd]
            have hix : t1.textureId.index ≠ tile.textureId.index := by
              intro he
              exact hsame (texId_eq_of he hkd)
            rw [listGetD_set_ne _ _ (fun he => hix he.symm)]
            rw [hkd] at hgetO
            exact hgetO
          · rw [if_neg hkd]
            exact hgetO
      · intro k1 k2 t1 t2 hne hl1 hl2 hsame
        exact hinj k1 k2 t1 t2 hne (hlookE k1 t1 hl1) (hlookE k2 t2 hl2) hsame

theorem stateWF_getOrInsert {s : WebGpuAtlasState} {k : AtlasKey}
    {b : BuildOutcome}
    {res : Except Unit (Option AtlasTile) × Nat × WebGpuAtlasState}
    (hwf : StateWF s) (h : s.getOrInsertWith k b = some res) :
    StateWF res.2.2 := by
  obtain ⟨⟨hfree, hslots⟩, hnd, hmem, hinj⟩ := hwf
  unfold WebGpuAtlasState.getOrInsertWith at h
  cases hlook : mapLookup s.tilesByKey k with
  | some tile =>
    rw [hlook] at h
    obtain rfl := Option.some.inj h
    exact ⟨⟨hfree, hslots⟩, hnd, hmem, hinj⟩
  | none =>
    rw [hlook] at h
    cases b with
    | error e =>
      obtain rfl := Option.some.inj h
      exact ⟨⟨hfree, hslots⟩, hnd, hmem, hinj⟩
    | ok content =>
      cases content with
      | none =>
        obtain rfl := Option.some.inj h
        exact ⟨⟨hfree, hslots⟩, hnd, hmem, hinj⟩
      | some pr =>
        obtain ⟨size, bytes⟩ := pr
        simp only at h
        cases halloc : ({ s with stats :=
            { s.stats with misses := s.stats.misses + 1 } } :
            WebGpuAtlasState).allocate size k.textureKind with
        | none => rw [halloc] at h; exact Option.noConfusion h
        | some pr2 =>
          obtain ⟨tile, s2⟩ := pr2
          rw [halloc] at h
          obtain rfl := Option.some.inj h
          have hsw1 : StorageWF { s with stats :=
              { s.stats with misses := s.stats.misses + 1 } } := ⟨hfree, hslots⟩
          obtain ⟨hsw2, hkeys2, -, -, ⟨texN, hgetN, hmemN⟩, hmono, hfreshNew⟩ :=
            stateWF_allocate hsw1 halloc
          have hkeys2' : s2.tilesByKey = s.tilesByKey := hkeys2
          have hallne : ∀ e ∈ s.tilesByKey, e.1 ≠ k :=
            mapLookup_eq_none_iff.mp hlook

          refine ⟨hsw2, ?_, ?_, ?_⟩
          · simp only [mapInsert, hkeys2']
            rw [mapErase_of_lookup_none hlook]
            exact List.pairwise_cons.mpr ⟨fun e he => (hallne e he).symm, hnd⟩
          · intro k1 t1 hl1
            by_cases hk1 : k1 = k
            · subst hk1
              rw [mapLookup_insert_self] at hl1
              obtain rfl := Option.some.inj hl1
              exact ⟨texN, hgetN, hmemN⟩
            · rw [mapLookup_insert_ne (fun he => hk1 he.symm)] at hl1
              rw [hkeys2'] at hl1
              obtain ⟨texO, hgetO, hmemO⟩ := hmem k1 t1 hl1
              obtain ⟨texN1, hgetN1, hsup⟩ := hmono _ texO hgetO
              exact ⟨texN1, hgetN1, hsup _ hmemO⟩
          · intro k1 k2 t1 t2 hne hl1 hl2 hsame
            by_cases hk1 : k1 = k
            · rw [hk1, mapLookup_insert_self] at hl1
              obtain rfl := Option.some.inj hl1
              have hk2 : k2 ≠ k := fun he => hne (hk1.trans he.symm)
              rw [mapLookup_insert_ne (fun he => hk2 he.symm), hkeys2'] at hl2
              obtain ⟨texO2, hgetO2, hmemO2⟩ := hmem k2 t2 hl2
              rcases hfreshNew with hnone | ⟨texO, hgetO, hidO⟩
              · rw [hsame] at hnone
                rw [hnone] at hgetO2
                exact absurd hgetO2 (by simp)
              · have : texO2 = texO := by
                  rw [← hsame] at hgetO2
                  exact Option.some.inj (hgetO2.symm.trans hgetO)
                subst this
                have htexO_inv : texO2.allocator.Inv := by
                  rw [storage_get_def] at hgetO
                  exact (hslots _ _ _ hgetO).2
                have hlt : t2.tileId < texO2.allocator.nextId :=
                  htexO_inv.2.1 _ hmemO2
                rw [hidO]
                exact fun he => absurd (he ▸ hlt) (lt_irrefl _)
            · by_cases hk2 : k2 = k
              · rw [hk2, mapLookup_insert_self] at hl2
                obtain rfl := Option.some.inj hl2
                rw [mapLookup_insert_ne (fun he => hk1 he.symm), hkeys2'] at hl1
                obtain ⟨texO1, hgetO1, hmemO1⟩ := hmem k1 t1 hl1
                rcases hfreshNew with hnone | ⟨texO, hgetO, hidO⟩
                · rw [← hsame] at hnone
                  rw [hnone] at hgetO1
                  exact absurd hgetO1 (by simp)
                · have : texO1 = texO := by
                    rw [← hsame] at hgetO
                    exact Option.some.inj (hgetO1.symm.trans hgetO)
                  subst this
                  have htexO_inv : texO1.allocator.Inv := by
                    rw [hsame, storage_get_def] at hgetO1
                    exact (hslots _ _ _ hgetO1).2
                  have hlt : t1.tileId < texO1.allocator.nextId := by
                    have := htexO_inv.2.1 _ hmemO1
                    exact this
                  rw [hidO]
                  exact fun he => absurd (he ▸ hlt) (lt_irrefl _)
              · rw [mapLookup_insert_ne (fun he => hk1 he.symm), hkeys2'] at hl1
                rw [mapLookup_insert_ne (fun he => hk2 he.symm), hkeys2'] at hl2
                exact hinj k1 k2 t1 t2 hne hl1 hl2 hsame

theorem stateWF_applyOp {s s' : WebGpuAtlasState} {op : AtlasOp}
    (hwf : StateWF s) (h : applyOp s op = some s') : StateWF s' := by
  cases op with
  | getOrInsert k b =>
    simp only [applyOp, Option.map_eq_some'] at h
    obtain ⟨res, hres, rfl⟩ := h
    exact stateWF_getOrInsert hwf hres
  | removeKey k =>
    simp only [applyOp, Option.some.injEq] at h
    subst h
    exact stateWF_removeKey k hwf
  | flush =>
    simp only [applyOp, Option.some.injEq] at h
    subst h
    obtain ⟨hsw, hnd, hmem, hinj⟩ := hwf
    exact ⟨hsw, hnd, hmem, hinj⟩

theorem stateWF_runOps {s s' : WebGpuAtlasState} {ops : List AtlasOp}
    (hwf : StateWF s) (h : runOps s ops = some s') : StateWF s' := by
  induction ops generalizing s with
  | nil => simp only [runOps, Option.some.injEq] at h; subst h; exact hwf
  | cons op rest ih =>
    simp only [runOps] at h
    cases happ : applyOp s op with
    | none => rw [happ] at h; exact Option.noConfusion h
    | some s1 =>
      rw [happ] at h
      exact ih (stateWF_applyOp hwf happ) h

theorem stateWF_init : StateWF atlasInit := by
  refine ⟨⟨?_, ?_⟩, ?_, ?_, ?_⟩
  · intro kd; cases kd <;> rfl
  · intro kd ix tex hget
    cases kd <;> (cases ix <;> exact Option.noConfusion hget)
  · exact List.Pairwise.nil
  · intro k t hl; exact absurd hl (by simp [atlasInit, mapLookup])
  · intro k1 k2 t1 t2 hne hl1
    exact absurd hl1 (by simp [atlasInit, mapLookup])

theorem liveTilesDisjoint_of_wf {s : WebGpuAtlasState} (hwf : StateWF s) :
    liveTilesDisjoint s := by
  obtain ⟨⟨hfree, hslots⟩, hnd, hmem, hinj⟩ := hwf
  intro k1 k2 t1 t2 hne hl1 hl2 hsame
  obtain ⟨tex1, hget1, hmem1⟩ := hmem k1 t1 hl1
  obtain ⟨tex2, hget2, hmem2⟩ := hmem k2 t2 hl2
  have : tex2 = tex1 := by
    rw [hsame] at hget1
    exact Option.some.inj (hget2.symm.trans hget1)
  subst this
  have hpw : tex2.allocator.allocated.Pairwise
      (fun p q => p.1 ≠ q.1 ∧ ¬ p.2.overlaps q.2) := by
    rw [storage_get_def] at hget1
    exact (hslots _ _ _ hget1).2.2.2
  have hids : t1.tileId ≠ t2.tileId := hinj k1 k2 t1 t2 hne hl1 hl2 hsame
  have hsym : Symmetric (fun p q : Nat × BoundsD => p.1 ≠ q.1 ∧ ¬ p.2.overlaps q.2) := by
    intro a b hab
    exact ⟨hab.1.symm, fun hov => hab.2 (BoundsD.overlaps_symm hov)⟩
  have hneq : ((t1.tileId, t1.bounds) : Nat × BoundsD) ≠ (t2.tileId, t2.bounds) := by
    intro he
    exact hids (congrArg Prod.fst he)
  exact (List.Pairwise.forall hsym hpw hmem1 hmem2 hneq).2

theorem getOrInsertWith_hit {s : WebGpuAtlasState} {k : AtlasKey}
    {tile : AtlasTile} (b : BuildOutcome)
    (hl : mapLookup s.tilesByKey k = some tile) :
    s.getOrInsertWith k b =
      some (.ok (some tile), 0,
        { s with stats := { s.stats with hits := s.stats.hits + 1 } }) := by
  simp only [WebGpuAtlasState.getOrInsertWith, hl]

theorem getOrInsertWith_miss_none {s : WebGpuAtlasState} {k : AtlasKey}
    (hl : mapLookup s.tilesByKey k = none) :
    s.getOrInsertWith k (.ok none) =
      some (.ok none, 1,
        { s with stats := { s.stats with misses := s.stats.misses + 1 } }) := by
  simp only [WebGpuAtlasState.getOrInsertWith, hl]

theorem getOrInsertWith_miss_error {s : WebGpuAtlasState} {k : AtlasKey}
    (e : Unit) (hl : mapLookup s.tilesByKey k = none) :
    s.getOrInsertWith k (.error e) =
      some (.error e, 1,
        { s with stats := { s.stats with misses := s.stats.misses + 1 } }) := by
  simp only [WebGpuAtlasState.getOrInsertWith, hl]

theorem getOrInsertWith_miss_some {s : WebGpuAtlasState} {k : AtlasKey}
    {size : SizeD} {bytes : List Nat} {tile : AtlasTile} {s2 : WebGpuAtlasState}
    (hl : mapLookup s.tilesByKey k = none)
    (halloc : WebGpuAtlasState.allocate
        { s with stats := { s.stats with misses := s.stats.misses + 1 } }
        size k.textureKind = some (tile, s2)) :
    s.getOrInsertWith k (.ok (some (size, bytes))) =
      some (.ok (some tile), 1,
        { s2 with
            uploads := s2.uploads ++ [⟨tile.textureId, tile.bounds, bytes⟩],
            tilesByKey := mapInsert s2.tilesByKey k tile }) := by
  simp only [WebGpuAtlasState.getOrInsertWith, hl, halloc]

theorem drawQuads_cases (S n O : Nat) :
    (n = 0 ∧ drawQuadsInternal S n O = ⟨0, O, false⟩) ∨
    (n ≠ 0 ∧ maxQuadsPerBatch * S < O + Nat.min n maxQuadsPerBatch * S ∧
      drawQuadsInternal S n O = ⟨0, O, true⟩) ∨
    (n ≠ 0 ∧ O + Nat.min n maxQuadsPerBatch * S ≤ maxQuadsPerBatch * S ∧
      drawQuadsInternal S n O =
        ⟨Nat.min n maxQuadsPerBatch,
         alignUpOffset (O + Nat.min n maxQuadsPerBatch * S), false⟩) := by
  unfold drawQuadsInternal
  by_cases h0 : n = 0
  · rw [if_pos h0]; exact Or.inl ⟨h0, rfl⟩
  · rw [if_neg h0]
    by_cases hov : maxQuadsPerBatch * S < O + Nat.min n maxQuadsPerBatch * S
    · rw [if_pos hov]; exact Or.inr (Or.inl ⟨h0, hov, rfl⟩)
    · rw [if_neg hov]; exact Or.inr (Or.inr ⟨h0, Nat.le_of_not_lt hov, rfl⟩)

theorem alignUpOffset_eq (x : Nat) (hx : x + 255 < 2 ^ 64) :
    alignUpOffset x = 256 * ((x + 255) / 256) := by
  have h1 : storageBufferAlignment - 1 = 255 := rfl
  unfold alignUpOffset
  rw [h1]
  exact land_alignMask64_eq (x + 255) hx

theorem drawQuads_step (S n O : Nat)
    (hS : maxQuadsPerBatch * S + 255 < 2 ^ 64)
    (hO : O ≤ maxQuadsPerBatch * S + 255) (hdvd : 256 ∣ O) :
    O ≤ (drawQuadsInternal S n O).nextOffset ∧
    (drawQuadsInternal S n O).nextOffset ≤ maxQuadsPerBatch * S + 255 ∧
    256 ∣ (drawQuadsInternal S n O).nextOffset := by
  rcases drawQuads_cases S n O with ⟨-, heq⟩ | ⟨-, -, heq⟩ | ⟨-, hle, heq⟩ <;>
    rw [heq]
  · exact ⟨le_refl _, hO, hdvd⟩
  · exact ⟨le_refl _, hO, hdvd⟩
  · have hx : O + Nat.min n maxQuadsPerBatch * S + 255 < 2 ^ 64 := by omega
    refine ⟨?_, ?_, ?_⟩
    · show O ≤ alignUpOffset (O + Nat.min n maxQuadsPerBatch * S)
      rw [alignUpOffset_eq _ hx]; omega
    · show alignUpOffset (O + Nat.min n maxQuadsPerBatch * S) ≤
        maxQuadsPerBatch * S + 255
      rw [alignUpOffset_eq _ hx]; omega
    · show 256 ∣ alignUpOffset (O + Nat.min n maxQuadsPerBatch * S)
      rw [alignUpOffset_eq _ hx]; exact ⟨_, rfl⟩

theorem scanl_head {α β : Type} (f : β → α → β) (b : β) (l : List α) :
    (List.scanl f b l).head? = some b := by
  cases l <;> rfl

theorem frame_offsets_invariant (S : Nat)
    (hS : maxQuadsPerBatch * S + 255 < 2 ^ 64) (batches : List Nat) (O : Nat)
    (hO : O ≤ maxQuadsPerBatch * S + 255) (hdvd : 256 ∣ O) :
    List.Chain' (· ≤ ·)
      (List.scanl (fun o n => (drawQuadsInternal S n o).nextOffset) O batches) ∧
    ∀ x ∈ List.scanl (fun o n => (drawQuadsInternal S n o).nextOffset) O batches,
      256 ∣ x ∧ x ≤ maxQuadsPerBatch * S + 255 := by
  induction batches generalizing O with
  | nil =>
    refine ⟨List.chain'_singleton _, ?_⟩
    intro x hx
    rw [List.scanl_nil, List.mem_singleton] at hx
    subst hx
    exact ⟨hdvd, hO⟩
  | cons n rest ih =>
    obtain ⟨hmono, hbound, hdvd'⟩ := drawQuads_step S n O hS hO hdvd
    obtain ⟨hch, hmem⟩ := ih _ hbound hdvd'
    rw [List.scanl_cons, List.singleton_append]
    refine ⟨?_, ?_⟩
    · rw [List.chain'_cons']
      refine ⟨?_, hch⟩
      intro y hy
      rw [scanl_head] at hy
      obtain rfl := Option.some.inj hy
      exact hmono
    · intro x hx
      rw [List.mem_cons] at hx
      rcases hx with rfl | hx
      · exact ⟨hdvd, hO⟩
      · exact hmem x hx

/-- C1: once `get_or_insert_with(k, build)` has cached a tile and until
`remove(k)` runs, every later `get_or_insert_with(k, build')` returns the
identical tile (same TextureId, tile id and bounds) and never invokes
`build'` (zero invocations). -/
theorem claim_C1 (s s' : WebGpuAtlasState) (k : AtlasKey) (t : AtlasTile)
    (ops : List AtlasOp) (build' : BuildOutcome)
    (hcached : mapLookup s.tilesByKey k = some t)
    (hops : ∀ op ∈ ops, op.removesKey k = false)
    (hrun : runOps s ops = some s') :
    (s'.getOrInsertWith k build').map (fun r => (r.1, r.2.1)) =
      some (.ok (some t), 0) := by
  have hc := runOps_preserves_lookup hcached hops hrun
  rw [getOrInsertWith_hit build' hc]
  rfl

theorem claim_C1_witness :
    mapLookup witInsertedState.tilesByKey ⟨0, .monochrome⟩ = some witTile ∧
    (∀ op ∈ [AtlasOp.flush], op.removesKey ⟨0, .monochrome⟩ = false) ∧
    runOps witInsertedState [AtlasOp.flush] = some witFlushedState ∧
    (witFlushedState.getOrInsertWith ⟨0, .monochrome⟩ (.ok none)).map
        (fun r => (r.1, r.2.1)) = some (.ok (some witTile), 0) :=
  ⟨by decide, by decide, by decide,
   claim_C1 witInsertedState witFlushedState ⟨0, .monochrome⟩ witTile
     [AtlasOp.flush] (.ok none) (by decide) (by decide) (by decide)⟩

/-- C3: in every state reachable from the fresh atlas by get-or-insert, remove
and flush operations, tiles cached under distinct keys in the same texture have
non-overlapping bounds rectangles. -/
theorem claim_C3 (ops : List AtlasOp) (s' : WebGpuAtlasState)
    (hrun : runOps atlasInit ops = some s') : liveTilesDisjoint s' :=
  liveTilesDisjoint_of_wf (stateWF_runOps stateWF_init hrun)

theorem claim_C3_witness :
    runOps atlasInit witInsertOps = some witInsertedState ∧
    liveTilesDisjoint witInsertedState :=
  ⟨by decide, claim_C3 witInsertOps witInsertedState (by decide)⟩

/-- C5: on a miss the build callback runs exactly once; when it yields no
content, no tile is allocated, nothing reaches the cache or the upload queue,
and the call returns `Ok(None)` — the only state change is the miss counter. -/
theorem claim_C5 (s : WebGpuAtlasState) (k : AtlasKey)
    (hmiss : mapLookup s.tilesByKey k = none) :
    s.getOrInsertWith k (.ok none) =
      some (.ok none, 1,
        { s with stats := { s.stats with misses := s.stats.misses + 1 } }) :=
  getOrInsertWith_miss_none hmiss

theorem claim_C5_witness :
    mapLookup atlasInit.tilesByKey ⟨0, .monochrome⟩ = none ∧
    atlasInit.getOrInsertWith ⟨0, .monochrome⟩ (.ok none) =
      some (.ok none, 1,
        { atlasInit with stats :=
            { atlasInit.stats with misses := atlasInit.stats.misses + 1 } }) :=
  ⟨by decide, claim_C5 atlasInit ⟨0, .monochrome⟩ (by decide)⟩

/-- C10: when the build callback fails on a miss, the error propagates, the
callback ran exactly once, and the cache, upload queue, storage — everything
but the miss counter — are left unchanged. -/
theorem claim_C10 (s : WebGpuAtlasState) (k : AtlasKey)
    (hmiss : mapLookup s.tilesByKey k = none) :
    s.getOrInsertWith k (.error ()) =
      some (.error (), 1,
        { s with stats := { s.stats with misses := s.stats.misses + 1 } }) :=
  getOrInsertWith_miss_error () hmiss

theorem claim_C10_witness :
    mapLookup atlasInit.tilesByKey ⟨1, .polychrome⟩ = none ∧
    atlasInit.getOrInsertWith ⟨1, .polychrome⟩ (.error ()) =
      some (.error (), 1,
        { atlasInit with stats :=
            { atlasInit.stats with misses := atlasInit.stats.misses + 1 } }) :=
  ⟨by decide, claim_C10 atlasInit ⟨1, .polychrome⟩ (by decide)⟩

/-- C8: removing a cached key evicts exactly that cache entry and decrements
the owning texture's live-tile count (saturating), leaving its rectangle
allocator untouched; removing an unknown key changes nothing and cannot
panic. -/
theorem claim_C8 (s : WebGpuAtlasState) (k : AtlasKey) :
    (mapLookup s.tilesByKey k = none → s.removeKey k = s) ∧
    (∀ t tex, mapLookup s.tilesByKey k = some t →
      s.storage.get t.textureId = some tex →
      s.removeKey k =
        { s with tilesByKey := mapErase s.tilesByKey k,
                 storage := s.storage.setSlot t.textureId tex.decrementRefCount } ∧
      tex.decrementRefCount.allocator = tex.allocator ∧
      tex.decrementRefCount.liveAtlasKeys = tex.liveAtlasKeys - 1) :=
  ⟨fun h => removeKey_of_lookup_none h,
   fun t tex hl hg => ⟨removeKey_of_get_some hl hg, rfl, rfl⟩⟩

theorem claim_C8_witness :
    mapLookup witInsertedState.tilesByKey ⟨1, .monochrome⟩ = none ∧
    witInsertedState.removeKey ⟨1, .monochrome⟩ = witInsertedState ∧
    mapLookup witInsertedState.tilesByKey ⟨0, .monochrome⟩ = some witTile ∧
    witInsertedState.storage.get witTile.textureId = some witTexture ∧
    (witInsertedState.removeKey ⟨0, .monochrome⟩ =
      { witInsertedState with
          tilesByKey := mapErase witInsertedState.tilesByKey ⟨0, .monochrome⟩,
          storage := witInsertedState.storage.setSlot witTile.textureId
            witTexture.decrementRefCount } ∧
      witTexture.decrementRefCount.allocator = witTexture.allocator ∧
      witTexture.decrementRefCount.liveAtlasKeys = witTexture.liveAtlasKeys - 1) :=
  ⟨by decide, (claim_C8 witInsertedState ⟨1, .monochrome⟩).1 (by decide),
   by decide, by decide,
   (claim_C8 witInsertedState ⟨0, .monochrome⟩).2 witTile witTexture
     (by decide) (by decide)⟩

/-- C9: `flush_uploads` always leaves the queue empty and the hit/miss counters
at zero while touching neither the cache nor the storage; the writes it
performs are exactly the queued uploads whose texture id is registered, so
entries naming an unknown id are dropped without error. -/
theorem claim_C9 (s : WebGpuAtlasState) :
    (s.flushUploads).1.uploads = [] ∧
    (s.flushUploads).1.stats = ⟨0, 0⟩ ∧
    (s.flushUploads).1.tilesByKey = s.tilesByKey ∧
    (s.flushUploads).1.storage = s.storage ∧
    (s.flushUploads).2 =
      s.uploads.filter (fun u => (s.storage.get u.id).isSome) ∧
    (∀ u ∈ s.uploads, s.storage.get u.id = none →
      u ∉ (s.flushUploads).2) := by
  refine ⟨rfl, rfl, rfl, rfl, rfl, ?_⟩
  intro u hu hnone hmem
  have hflt : (s.flushUploads).2 =
      s.uploads.filter (fun u => (s.storage.get u.id).isSome) := rfl
  rw [hflt, List.mem_filter] at hmem
  rw [hnone] at hmem
  simpa using hmem.2

theorem claim_C9_witness :
    (witOrphanState.flushUploads).1.uploads = [] ∧
    (witOrphanState.flushUploads).1.stats = ⟨0, 0⟩ ∧
    (witOrphanState.flushUploads).1.tilesByKey = witOrphanState.tilesByKey ∧
    (witOrphanState.flushUploads).1.storage = witOrphanState.storage ∧
    (witOrphanState.flushUploads).2 =
      witOrphanState.uploads.filter
        (fun u => (witOrphanState.storage.get u.id).isSome) ∧
    (∀ u ∈ witOrphanState.uploads, witOrphanState.storage.get u.id = none →
      u ∉ (witOrphanState.flushUploads).2) :=
  claim_C9 witOrphanState

/-- C6: when no existing texture fits, `push_texture` creates a texture sized
to the componentwise max of the request and 1024×1024, allocating the request
in that fresh texture always succeeds, and `allocate` as a whole never reaches
its panic branch. -/
theorem claim_C6 (s : WebGpuAtlasState) (size : SizeD)
    (kind : AtlasTextureKind) :
    (s.allocate size kind).isSome ∧
    (s.pushTexture size kind).1.size.width = Nat.max size.width 1024 ∧
    (s.pushTexture size kind).1.size.height = Nat.max size.height 1024 ∧
    ((s.pushTexture size kind).1.allocate size).isSome := by
  obtain ⟨hallocator, hsize, -⟩ := pushTexture_fields s size kind
  refine ⟨alloc_isSome s size kind, ?_, ?_, ?_⟩
  · rw [hsize]; rfl
  · rw [hsize]; rfl
  · refine texAllocate_isSome_of_fits ?_
    rw [hallocator]
    exact ShelfAllocator.fresh_allocate_isSome _ _
      (Nat.le_max_left _ _) (Nat.le_max_left _ _)

/-- C4: within a frame the quad offset trace starts at zero, successive offsets
are non-decreasing multiples of 256, and whenever a batch draws instances the
returned offset is `ceil((O + N*S) / 256) * 256` for the N actually drawn
(stated with the 256-ceiling written as `256 * ((x + 255) / 256)`). -/
theorem claim_C4 (S : Nat) (batches : List Nat)
    (hS : maxQuadsPerBatch * S + 255 < 2 ^ 64) :
    (frameQuadOffsets S batches).head? = some 0 ∧
    List.Chain' (· ≤ ·) (frameQuadOffsets S batches) ∧
    (∀ O ∈ frameQuadOffsets S batches, 256 ∣ O) ∧
    (∀ n O, 0 < (drawQuadsInternal S n O).drawn →
      (drawQuadsInternal S n O).nextOffset =
        256 * ((O + (drawQuadsInternal S n O).drawn * S + 255) / 256)) := by
  obtain ⟨hch, hmem⟩ :=
    frame_offsets_invariant S hS batches 0 (Nat.zero_le _) (dvd_zero 256)
  refine ⟨scanl_head _ _ _, hch, fun O hO => (hmem O hO).1, ?_⟩
  intro n O hpos
  rcases drawQuads_cases S n O with ⟨-, heq⟩ | ⟨-, -, heq⟩ | ⟨-, hle, heq⟩
  · rw [heq] at hpos; exact absurd hpos (by simp)
  · rw [heq] at hpos; exact absurd hpos (by simp)
  · rw [heq]
    have hx : O + Nat.min n maxQuadsPerBatch * S + 255 < 2 ^ 64 := by
      simp only [maxQuadsPerBatch] at hS hle ⊢
      omega
    show alignUpOffset (O + Nat.min n maxQuadsPerBatch * S) =
      256 * ((O + Nat.min n maxQuadsPerBatch * S + 255) / 256)
    exact alignUpOffset_eq _ hx

theorem claim_C4_witness :
    maxQuadsPerBatch * 16 + 255 < 2 ^ 64 ∧
    ((frameQuadOffsets 16 [1, 4096, 0]).head? = some 0 ∧
      List.Chain' (· ≤ ·) (frameQuadOffsets 16 [1, 4096, 0]) ∧
      (∀ O ∈ frameQuadOffsets 16 [1, 4096, 0], 256 ∣ O) ∧
      (∀ n O, 0 < (drawQuadsInternal 16 n O).drawn →
        (drawQuadsInternal 16 n O).nextOffset =
          256 * ((O + (drawQuadsInternal 16 n O).drawn * 16 + 255) / 256))) :=
  ⟨by decide, claim_C4 16 [1, 4096, 0] (by decide)⟩

/-- C2 as stated is false on the code: when the capped batch does not fit the
remaining buffer capacity, `draw_quads_internal` draws zero instances instead
of clamping to the count that would fit.  At quad size 256 with the offset
already at 256, a 4096-quad batch overflows, the code draws 0 instances and
logs, yet 4095 instances would have fit at that offset. -/
theorem claim_C2_counterexample :
    maxQuadsPerBatch * 256 < 256 + Nat.min 4096 maxQuadsPerBatch * 256 ∧
    drawQuadsInternal 256 4096 256 = ⟨0, 256, true⟩ ∧
    (maxQuadsPerBatch * 256 - 256) / 256 = 4095 := by decide

/-- C2 amended: the instance count is first capped at `MAX_QUADS_PER_BATCH`;
when the capped batch's bytes do not fit between the current offset and the
buffer capacity, the whole batch is skipped — zero instances drawn, the offset
unchanged, the overflow logged — so no write ever lands beyond the capacity;
a single 5000-quad batch at the start of a frame still draws exactly 4096
instances. -/
theorem claim_C2_amended (S n O : Nat) :
    ((drawQuadsInternal S n O).drawn = 0 ∨
      O + (drawQuadsInternal S n O).drawn * S ≤ maxQuadsPerBatch * S) ∧
    (n ≠ 0 → maxQuadsPerBatch * S < O + Nat.min n maxQuadsPerBatch * S →
      drawQuadsInternal S n O = ⟨0, O, true⟩) ∧
    drawQuadsInternal S 5000 0 = ⟨4096, alignUpOffset (4096 * S), false⟩ := by
  refine ⟨?_, ?_, ?_⟩
  · rcases drawQuads_cases S n O with ⟨-, heq⟩ | ⟨-, -, heq⟩ | ⟨-, hle, heq⟩ <;>
      rw [heq]
    · exact Or.inl rfl
    · exact Or.inl rfl
    · exact Or.inr hle
  · intro h0 hov
    rcases drawQuads_cases S n O with ⟨he, -⟩ | ⟨-, -, heq⟩ | ⟨-, hle, -⟩
    · exact absurd he h0
    · exact heq
    · exact absurd hov (Nat.not_lt.mpr hle)
  · have hmin : Nat.min 5000 maxQuadsPerBatch = 4096 := by decide
    unfold drawQuadsInternal
    rw [if_neg (by decide : ¬ (5000 = 0)), hmin,
      if_neg (by simp only [maxQuadsPerBatch]; omega :
        ¬ maxQuadsPerBatch * S < 0 + 4096 * S), Nat.zero_add]

theorem claim_C2_amended_witness :
    drawQuadsInternal 256 4096 256 = ⟨0, 256, true⟩ ∧
    drawQuadsInternal 256 5000 0 =
      ⟨4096, alignUpOffset (4096 * 256), false⟩ :=
  ⟨(claim_C2_amended 256 4096 256).2.1 (by decide) (by decide),
   (claim_C2_amended 256 5000 0).2.2⟩

/-- C7 as stated is false on the code: neither `get_or_insert_with` nor
`flush_uploads` checks the produced byte length.  A 1-byte payload for an 8×8
monochrome tile (which needs 64 bytes) is cached and enqueued for upload
rather than skipped. -/
theorem claim_C7_counterexample :
    ([7] : List Nat).length ≠ 8 * 8 * 1 ∧
    (atlasInit.getOrInsertWith ⟨0, .monochrome⟩
        (.ok (some (⟨8, 8⟩, [7])))).map
        (fun r => (r.2.2.uploads.map (fun u => u.data),
          (mapLookup r.2.2.tilesByKey ⟨0, .monochrome⟩).isSome)) =
      some ([[7]], true) := by decide

/-- C7 amended: the atlas performs no byte-length validation — on a miss any
produced bytes, well-formed or not, are enqueued verbatim as the new tile's
upload and the tile is cached; the only entries `flush_uploads` skips are
those naming an unregistered texture id. -/
theorem claim_C7_amended (s : WebGpuAtlasState) (k : AtlasKey) (size : SizeD)
    (bytes : List Nat) (hmiss : mapLookup s.tilesByKey k = none) :
    ∃ tile s2, s.getOrInsertWith k (.ok (some (size, bytes))) =
        some (.ok (some tile), 1, s2) ∧
      s2.uploads = s.uploads ++ [⟨tile.textureId, tile.bounds, bytes⟩] ∧
      mapLookup s2.tilesByKey k = some tile := by
  have hsome := alloc_isSome
    { s with stats := { s.stats with misses := s.stats.misses + 1 } }
    size k.textureKind
  cases halloc : WebGpuAtlasState.allocate
      { s with stats := { s.stats with misses := s.stats.misses + 1 } }
      size k.textureKind with
  | none => rw [halloc] at hsome; simp at hsome
  | some pr =>
    obtain ⟨tile, s2'⟩ := pr
    refine ⟨tile, _, getOrInsertWith_miss_some hmiss halloc, ?_, ?_⟩
    · have hup := (allocate_fields halloc).2.1
      show s2'.uploads ++ [⟨tile.textureId, tile.bounds, bytes⟩] =
        s.uploads ++ [⟨tile.textureId, tile.bounds, bytes⟩]
      rw [hup]
    · exact mapLookup_insert_self _ _ _

theorem claim_C7_amended_witness :
    mapLookup atlasInit.tilesByKey ⟨0, .monochrome⟩ = none ∧
    (∃ tile s2, atlasInit.getOrInsertWith ⟨0, .monochrome⟩
        (.ok (some (⟨8, 8⟩, [7]))) = some (.ok (some tile), 1, s2) ∧
      s2.uploads = atlasInit.uploads ++ [⟨tile.textureId, tile.bounds, [7]⟩] ∧
      mapLookup s2.tilesByKey ⟨0, .monochrome⟩ = some tile) :=
  ⟨by decide,
   claim_C7_amended atlasInit ⟨0, .monochrome⟩ ⟨8, 8⟩ [7] (by decide)⟩

end GpuiWeb
